import Mathlib

/-!
# Verification of the `point_index` coordinate-indexing library

Shallow embedding of `src/lib.rs` of the `point` repository.

Modelling conventions:

* `isize` components of `Point` are modelled as unbounded `Int`.  Rust signed
  arithmetic overflow is a program error (a panic under the default checked
  semantics), not a defined wrap, and the spec's data model declares the
  components "unbounded by the type itself"; none of the arithmetic claims
  concern overflow behaviour.
* The `x as isize` narrowing cast in `Point::new` IS a defined wrapping
  conversion in Rust, and the cast's truncation is exactly what claim C8 is
  about, so it is modelled bit-exactly for a 64-bit target by `usizeToIsize`.
* `try_into` from `isize` to `usize` (64-bit) succeeds exactly on non-negative
  values; it is modelled by `isizeToUsize?`.
* Rust panics (`unwrap`, slice `[]` out of range) are modelled by `none`;
  mutation is modelled by state passing (the function returns the new grid).
* `Vec<Vec<A>>` is modelled as `List (List A)`.  The `[[A; SIZE_INNER];
  SIZE_OUTER]` impls of `Get`, `Set`, `Index`, `IndexMut` and
  `enumerate_iter_arr` have bodies textually identical to the `Vec` impls
  (they never use the const generics); a fixed-size array value is a list of
  lists satisfying the rectangularity invariant `Rect inner outer`, and the
  fixed-size operations are the same list-level functions, used under that
  invariant.
-/

namespace PointIndex

/-- `Point` from `src/lib.rs`: `pub struct Point { pub x: isize, pub y: isize }`. -/
structure Point where
  x : Int
  y : Int
deriving DecidableEq, Repr

/-- `pub const UP: Point = Point { x: 0, y: -1 };` -/
def UP : Point := ⟨0, -1⟩

/-- `pub const DOWN: Point = Point { x: 0, y: 1 };` -/
def DOWN : Point := ⟨0, 1⟩

/-- `pub const LEFT: Point = Point { x: -1, y: 0 };` -/
def LEFT : Point := ⟨-1, 0⟩

/-- `pub const RIGHT: Point = Point { x: 1, y: 0 };` -/
def RIGHT : Point := ⟨1, 0⟩

/-- `pub const UP_LEFT: Point = Point { x: -1, y: -1 };` -/
def UP_LEFT : Point := ⟨-1, -1⟩

/-- `pub const UP_RIGHT: Point = Point { x: 1, y: -1 };` -/
def UP_RIGHT : Point := ⟨1, -1⟩

/-- `pub const DOWN_LEFT: Point = Point { x: -1, y: 1 };` -/
def DOWN_LEFT : Point := ⟨-1, 1⟩

/-- `pub const DOWN_RIGHT: Point = Point { x: 1, y: 1 };` -/
def DOWN_RIGHT : Point := ⟨1, 1⟩

/-- The Rust `as isize` cast from `usize` (64-bit): reduce modulo `2^64`,
then reinterpret the bit pattern as two's-complement signed. -/
def usizeToIsize (n : Nat) : Int :=
  if n % 2 ^ 64 < 2 ^ 63 then ((n % 2 ^ 64 : Nat) : Int)
  else ((n % 2 ^ 64 : Nat) : Int) - 2 ^ 64

/-- `Point::new(x: usize, y: usize) -> Point { Point { x: x as isize, y: y as isize } }`. -/
def Point.new (x y : Nat) : Point :=
  ⟨usizeToIsize x, usizeToIsize y⟩

/-- `Point::new_isize(x: isize, y: isize) -> Point { Point { x, y } }`. -/
def Point.new_isize (x y : Int) : Point :=
  ⟨x, y⟩

/-- `impl Add for Point`: componentwise addition. -/
def Point.add (a b : Point) : Point :=
  ⟨a.x + b.x, a.y + b.y⟩

/-- `impl Sub for Point`: `Point::new_isize(self.x - other.x, self.y - other.y)`. -/
def Point.sub (a b : Point) : Point :=
  Point.new_isize (a.x - b.x) (a.y - b.y)

/-- `impl Mul<isize> for Point`: `Point::new_isize(self.x * other, self.y * other)`. -/
def Point.mul (a : Point) (k : Int) : Point :=
  Point.new_isize (a.x * k) (a.y * k)

instance : Add Point := ⟨Point.add⟩

instance : Sub Point := ⟨Point.sub⟩

instance : HMul Point Int Point := ⟨Point.mul⟩

/-- `TryInto<usize> for isize` (64-bit): succeeds exactly on non-negative values. -/
def isizeToUsize? (i : Int) : Option Nat :=
  if 0 ≤ i then some i.toNat else none

/-- `Get::get_option` for `Vec<Vec<A>>` (and the textually identical
`[[A; SIZE_INNER]; SIZE_OUTER]` impl):
`let x = point.x.try_into().ok()?; let y = point.y.try_into().ok()?;
self.get(y)?.get(x)`. -/
def get_option (g : List (List A)) (p : Point) : Option A :=
  match isizeToUsize? p.x with
  | none => none
  | some x =>
    match isizeToUsize? p.y with
    | none => none
    | some y =>
      match g[y]? with
      | none => none
      | some row => row[x]?

/-- `Get::get_mut_option` for `Vec<Vec<A>>` (and the textually identical
array impl): same conversions, then `self.get_mut(y)?.get_mut(x)`.
The mutable borrow is modelled by the value it refers to. -/
def get_mut_option (g : List (List A)) (p : Point) : Option A :=
  match isizeToUsize? p.x with
  | none => none
  | some x =>
    match isizeToUsize? p.y with
    | none => none
    | some y =>
      match g[y]? with
      | none => none
      | some row => row[x]?

/-- `Set::set` for `Vec<Vec<A>>` (and the textually identical array impl):
`let inner = self.get_mut(y)?; let location = inner.get_mut(x)?;
Some(mem::replace(location, value))`.  State-passing: the second component is
the grid after the call (unchanged whenever the result is `none`). -/
def set (g : List (List A)) (p : Point) (v : A) : Option A × List (List A) :=
  match isizeToUsize? p.x with
  | none => (none, g)
  | some x =>
    match isizeToUsize? p.y with
    | none => (none, g)
    | some y =>
      match g[y]? with
      | none => (none, g)
      | some inner =>
        match inner[x]? with
        | none => (none, g)
        | some old => (some old, g.set y (inner.set x v))

/-- `impl Index<Point>` (panicking read) for `Vec<Vec<A>>` (and the textually
identical array impl): `let x = index.x.try_into().unwrap(); let y = ...;
&self[y][x]`.  `none` models the panic (of `unwrap` or of slice indexing). -/
def index (g : List (List A)) (p : Point) : Option A :=
  match isizeToUsize? p.x with
  | none => none
  | some x =>
    match isizeToUsize? p.y with
    | none => none
    | some y =>
      match g[y]? with
      | none => none
      | some row => row[x]?

/-- The panicking indexed write `g[p] = v` via `impl IndexMut<Point>`:
`unwrap` the conversions, panic if either slice index is out of range,
otherwise store `v` through the returned place.  `none` models the panic. -/
def index_mut_write (g : List (List A)) (p : Point) (v : A) :
    Option (List (List A)) :=
  match isizeToUsize? p.x with
  | none => none
  | some x =>
    match isizeToUsize? p.y with
    | none => none
    | some y =>
      match g[y]? with
      | none => none
      | some row =>
        match row[x]? with
        | none => none
        | some _ => some (g.set y (row.set x v))

/-- `enumerate_iter_vec` (and the textually identical `enumerate_iter_arr`):
`vec.into_iter().enumerate().flat_map(|(y, row)|
row.into_iter().enumerate().map(move |(x, item)| (Point::new(x, y), item)))`.
The lazy iterator is modelled by the list of pairs it yields. -/
def enumerate_iter_vec (g : List (List A)) : List (Point × A) :=
  g.enum.flatMap fun yrow =>
    yrow.2.enum.map fun xitem => (Point.new xitem.1 yrow.1, xitem.2)

/-- In-bounds predicate for a (possibly ragged) dynamic grid, as the spec
words it: both components non-negative, `y` less than the row count, and `x`
less than the length of row `y`. -/
def inBounds (g : List (List A)) (p : Point) : Bool :=
  decide (0 ≤ p.x) && decide (0 ≤ p.y) &&
    (match g[p.y.toNat]? with
     | none => false
     | some row => decide (p.x.toNat < row.length))

/-- In-bounds predicate for a fixed-size `[[A; inner]; outer]` grid: both
components non-negative and below the respective extents. -/
def arrInBounds (inner outer : Nat) (p : Point) : Bool :=
  decide (0 ≤ p.x) && decide (0 ≤ p.y) &&
    decide (p.y.toNat < outer) && decide (p.x.toNat < inner)

/-- A list of lists is the row list of a `[[A; inner]; outer]` value:
`outer` rows, each of length `inner`. -/
def Rect (inner outer : Nat) (g : List (List A)) : Prop :=
  g.length = outer ∧ ∀ r ∈ g, r.length = inner

/-- Generalisation of `enumerate_iter_vec` used to reason by induction:
the row index starts at `y0` instead of `0`. -/
def enum_from_pairs (y0 : Nat) (g : List (List A)) : List (Point × A) :=
  (g.enumFrom y0).flatMap fun yrow =>
    yrow.2.enum.map fun xitem => (Point.new xitem.1 yrow.1, xitem.2)

/-! ## Helper lemmas -/

theorem get_mut_option_eq_get_option (g : List (List A)) (p : Point) :
    get_mut_option g p = get_option g p := rfl

theorem index_eq_get_option (g : List (List A)) (p : Point) :
    index g p = get_option g p := rfl

theorem isSome_getElem_opt (l : List α) (i : Nat) :
    l[i]?.isSome = decide (i < l.length) := by
  by_cases h : i < l.length
  · simp [List.getElem?_eq_getElem h, h]
  · simp [List.getElem?_eq_none (Nat.le_of_not_lt h), h]

theorem get_option_eq_some_iff (g : List (List A)) (p : Point) (v : A) :
    get_option g p = some v ↔
      0 ≤ p.x ∧ 0 ≤ p.y ∧
        ∃ row, g[p.y.toNat]? = some row ∧ row[p.x.toNat]? = some v := by
  unfold get_option isizeToUsize?
  by_cases hx : 0 ≤ p.x <;> by_cases hy : 0 ≤ p.y <;> simp [hx, hy]
  cases hrow : g[p.y.toNat]? <;> simp

theorem isSome_get_option (g : List (List A)) (p : Point) :
    (get_option g p).isSome = inBounds g p := by
  unfold get_option inBounds isizeToUsize?
  by_cases hx : 0 ≤ p.x <;> by_cases hy : 0 ≤ p.y <;> simp [hx, hy]
  cases hrow : g[p.y.toNat]? with
  | none => simp
  | some row =>
    simp [isSome_getElem_opt]
    omega

theorem get_option_eq_none_iff (g : List (List A)) (p : Point) :
    get_option g p = none ↔ inBounds g p = false := by
  rw [← Option.not_isSome_iff_eq_none, isSome_get_option, Bool.not_eq_true]

theorem get_option_of_neg (g : List (List A)) (p : Point)
    (h : ¬ (0 ≤ p.x ∧ 0 ≤ p.y)) : get_option g p = none := by
  unfold get_option isizeToUsize?
  by_cases hx : 0 ≤ p.x <;> by_cases hy : 0 ≤ p.y <;> simp [hx, hy]
  tauto

theorem set_of_oob (g : List (List A)) (p : Point) (v : A)
    (h : inBounds g p = false) : set g p v = (none, g) := by
  unfold set
  unfold inBounds at h
  by_cases hx : 0 ≤ p.x <;> by_cases hy : 0 ≤ p.y <;>
    simp [isizeToUsize?, hx, hy] at h ⊢
  cases hrow : g[p.y.toNat]? with
  | none => simp
  | some row =>
    rw [hrow] at h
    simp only [decide_eq_false_iff_not] at h
    have hle : row.length ≤ p.x.toNat := by omega
    simp [List.getElem?_eq_none hle]

theorem set_of_inb (g : List (List A)) (p : Point) (v : A) (row : List A)
    (old : A) (hrow : g[p.y.toNat]? = some row)
    (hold : row[p.x.toNat]? = some old) (hx : 0 ≤ p.x) (hy : 0 ≤ p.y) :
    set g p v = (some old, g.set p.y.toNat (row.set p.x.toNat v)) := by
  unfold set
  simp [isizeToUsize?, hx, hy, hrow, hold]

theorem inBounds_of_rect {inner outer : Nat} {g : List (List A)}
    (hr : Rect inner outer g) (p : Point) :
    inBounds g p = arrInBounds inner outer p := by
  obtain ⟨ho, hi⟩ := hr
  unfold inBounds arrInBounds
  cases hrow : g[p.y.toNat]? with
  | none =>
    have hge : ¬ p.y.toNat < outer := by
      rw [← ho]
      exact Nat.not_lt.mpr (List.getElem?_eq_none_iff.mp hrow)
    simp [hge]
  | some row =>
    obtain ⟨hlt0, -⟩ := List.getElem?_eq_some_iff.mp hrow
    have hlt : p.y.toNat < outer := ho ▸ hlt0
    have hrl : row.length = inner := hi row (List.getElem?_mem hrow)
    simp [hlt, hrl, Bool.and_assoc]

theorem set_getElem_opt_self {l : List α} {i : Nat} {a : α}
    (h : l[i]? = some a) : l.set i a = l := by
  induction l generalizing i with
  | nil => simp at h
  | cons b l ih =>
    cases i with
    | zero =>
      simp only [List.getElem?_cons_zero, Option.some.injEq] at h
      simp [h]
    | succ n =>
      simp only [List.getElem?_cons_succ] at h
      simp [ih h]

theorem point_ne_iff (p q : Point) : p ≠ q ↔ p.x ≠ q.x ∨ p.y ≠ q.y := by
  cases p
  cases q
  simp [Point.mk.injEq]
  tauto

theorem enumerate_iter_vec_eq (g : List (List A)) :
    enumerate_iter_vec g = enum_from_pairs 0 g := rfl

theorem enum_from_pairs_cons (y0 : Nat) (row : List A) (g : List (List A)) :
    enum_from_pairs y0 (row :: g) =
      row.enum.map (fun xitem => (Point.new xitem.1 y0, xitem.2)) ++
        enum_from_pairs (y0 + 1) g := by
  simp [enum_from_pairs, List.enumFrom_cons]

theorem length_enum_from_pairs (y0 : Nat) (g : List (List A)) :
    (enum_from_pairs y0 g).length = (g.map List.length).sum := by
  induction g generalizing y0 with
  | nil => rfl
  | cons row g ih => simp [enum_from_pairs_cons, ih]

theorem getElem_enum_from_pairs (g : List (List A)) (y0 y x : Nat)
    (row : List A) (v : A) (hrow : g[y]? = some row)
    (hv : row[x]? = some v) :
    (enum_from_pairs y0 g)[((g.take y).map List.length).sum + x]? =
      some (Point.new x (y0 + y), v) := by
  induction g generalizing y0 y with
  | nil => simp at hrow
  | cons r g ih =>
    cases y with
    | zero =>
      simp only [List.getElem?_cons_zero, Option.some.injEq] at hrow
      subst hrow
      obtain ⟨hxlt, -⟩ := List.getElem?_eq_some_iff.mp hv
      rw [enum_from_pairs_cons]
      rw [List.getElem?_append_left (by simpa using hxlt)]
      simp [List.enum_eq_enumFrom, hv]
    | succ y =>
      simp only [List.getElem?_cons_succ] at hrow
      rw [enum_from_pairs_cons]
      rw [List.take_succ_cons, List.map_cons, List.sum_cons]
      have hlen : (row.enum.map
          (fun xitem => (Point.new xitem.1 y0, xitem.2))).length = row.length := by
        simp
      rw [List.getElem?_append_right (by simp; omega)]
      have harith : r.length + ((g.take y).map List.length).sum + x -
          (r.enum.map (fun xitem => (Point.new xitem.1 y0, xitem.2))).length =
          ((g.take y).map List.length).sum + x := by
        simp
        omega
      rw [harith]
      rw [ih (y0 + 1) y hrow]
      have : y0 + 1 + y = y0 + (y + 1) := by omega
      rw [this]

theorem mem_enum_from_pairs {g : List (List A)} {y0 : Nat} {p : Point} {v : A}
    (h : (p, v) ∈ enum_from_pairs y0 g) :
    ∃ y row x, g[y]? = some row ∧ row[x]? = some v ∧
      p = Point.new x (y0 + y) := by
  unfold enum_from_pairs at h
  rw [List.mem_flatMap] at h
  obtain ⟨⟨yy, row⟩, hmem, hmap⟩ := h
  rw [List.mem_map] at hmap
  obtain ⟨⟨xx, item⟩, hxmem, heq⟩ := hmap
  obtain ⟨hp, hv⟩ := Prod.mk.injEq .. ▸ heq
  rw [List.mem_iff_getElem?] at hmem hxmem
  obtain ⟨y, hy⟩ := hmem
  obtain ⟨x, hx⟩ := hxmem
  rw [List.getElem?_enumFrom, Option.map_eq_some'] at hy
  rw [List.enum_eq_enumFrom, List.getElem?_enumFrom, Option.map_eq_some'] at hx
  obtain ⟨rowa, hga, hca⟩ := hy
  obtain ⟨itema, hra, hcb⟩ := hx
  obtain ⟨h1, h2⟩ := Prod.mk.injEq .. ▸ hca
  obtain ⟨h3, h4⟩ := Prod.mk.injEq .. ▸ hcb
  refine ⟨y, rowa, x, hga, ?_, ?_⟩
  · have hra2 : rowa[x]? = some itema := by
      rw [h2]
      exact hra
    rw [hra2]
    exact congrArg some (h4.trans hv)
  · rw [← hp, ← h1, ← h3]
    simp

theorem point_new_of_lt {x y : Nat} (hx : x < 2 ^ 63) (hy : y < 2 ^ 63) :
    Point.new x y = ⟨(x : Int), (y : Int)⟩ := by
  unfold Point.new usizeToIsize
  have hx1 : x % 2 ^ 64 = x := Nat.mod_eq_of_lt (by omega)
  have hy1 : y % 2 ^ 64 = y := Nat.mod_eq_of_lt (by omega)
  rw [hx1, hy1]
  rw [if_pos hx, if_pos hy]

instance (inner outer : Nat) (g : List (List A)) : Decidable (Rect inner outer g) := by
  unfold Rect
  infer_instance

theorem add_def (a b : Point) : a + b = Point.add a b := rfl

theorem sub_def (a b : Point) : a - b = Point.sub a b := rfl

theorem mul_def (a : Point) (k : Int) : a * k = Point.mul a k := rfl

theorem inBounds_eq_true_iff (g : List (List A)) (p : Point) :
    inBounds g p = true ↔ 0 ≤ p.x ∧ 0 ≤ p.y ∧
      ∃ row, g[p.y.toNat]? = some row ∧ p.x.toNat < row.length := by
  unfold inBounds
  by_cases hx : 0 ≤ p.x <;> by_cases hy : 0 ≤ p.y <;> simp [hx, hy]
  cases hrow : g[p.y.toNat]? with
  | none => simp
  | some row => simp

theorem get_option_nonneg (g : List (List A)) (p : Point) (hx : 0 ≤ p.x)
    (hy : 0 ≤ p.y) :
    get_option g p = (g[p.y.toNat]?).bind fun row => row[p.x.toNat]? := by
  unfold get_option isizeToUsize?
  simp [hx, hy]
  cases g[p.y.toNat]? <;> simp

theorem isSome_index_mut_write (g : List (List A)) (p : Point) (v : A) :
    (index_mut_write g p v).isSome = inBounds g p := by
  unfold index_mut_write inBounds isizeToUsize?
  by_cases hx : 0 ≤ p.x <;> by_cases hy : 0 ≤ p.y <;> simp [hx, hy]
  cases hrow : g[p.y.toNat]? with
  | none => simp
  | some row =>
    cases hcell : row[p.x.toNat]? with
    | none =>
      have h2 := List.getElem?_eq_none_iff.mp hcell
      simp [hcell]
      omega
    | some old =>
      obtain ⟨hlt, -⟩ := List.getElem?_eq_some_iff.mp hcell
      simp [hcell]
      omega

theorem take_map_length_sum_of_rect {inner outer : Nat} {g : List (List A)}
    (hr : Rect inner outer g) (y : Nat) (hy : y ≤ g.length) :
    ((g.take y).map List.length).sum = y * inner := by
  have hrep : (g.take y).map List.length = List.replicate y inner := by
    rw [List.eq_replicate_iff]
    constructor
    · simp [hy]
    · intro b hb
      rw [List.mem_map] at hb
      obtain ⟨r, hrmem, hrb⟩ := hb
      exact hrb ▸ hr.2 r (List.mem_of_mem_take hrmem)
  rw [hrep, List.sum_replicate, smul_eq_mul]

theorem set_roundtrip_main (g : List (List A)) (p : Point) (v : A)
    (h : inBounds g p = true) :
    ∃ old, get_option g p = some old ∧ (set g p v).1 = some old ∧
      get_option (set g p v).2 p = some v ∧
      (∀ q : Point, q ≠ p → get_option (set g p v).2 q = get_option g q) ∧
      set (set g p v).2 p old = (some v, g) := by
  obtain ⟨hx, hy, row, hrow, hxlt⟩ := (inBounds_eq_true_iff g p).mp h
  obtain ⟨hylt, -⟩ := List.getElem?_eq_some_iff.mp hrow
  obtain ⟨old, hold⟩ : ∃ o, row[p.x.toNat]? = some o :=
    ⟨_, List.getElem?_eq_getElem hxlt⟩
  have hset : set g p v = (some old, g.set p.y.toNat (row.set p.x.toNat v)) :=
    set_of_inb g p v row old hrow hold hx hy
  refine ⟨old, ?_, ?_, ?_, ?_, ?_⟩
  · exact (get_option_eq_some_iff g p old).mpr ⟨hx, hy, row, hrow, hold⟩
  · rw [hset]
  · rw [hset]
    apply (get_option_eq_some_iff _ p v).mpr
    exact ⟨hx, hy, row.set p.x.toNat v, List.getElem?_set_self hylt,
      List.getElem?_set_self hxlt⟩
  · intro q hq
    rw [hset]
    by_cases hq0 : 0 ≤ q.x ∧ 0 ≤ q.y
    · obtain ⟨hqx, hqy⟩ := hq0
      rw [get_option_nonneg _ q hqx hqy, get_option_nonneg g q hqx hqy]
      by_cases hyy : q.y.toNat = p.y.toNat
      · have hne := (point_ne_iff q p).mp hq
        have hxne : q.x.toNat ≠ p.x.toNat := by
          have hye : q.y = p.y := by omega
          have hxe : q.x ≠ p.x := by tauto
          omega
        rw [hyy, List.getElem?_set_self hylt, hrow]
        simp only [Option.some_bind]
        exact List.getElem?_set_ne (Ne.symm hxne)
      · rw [List.getElem?_set_ne (Ne.symm hyy)]
    · rw [get_option_of_neg _ q hq0, get_option_of_neg g q hq0]
  · rw [hset]
    have hrow2 : (g.set p.y.toNat (row.set p.x.toNat v))[p.y.toNat]? =
        some (row.set p.x.toNat v) := List.getElem?_set_self hylt
    have hcell2 : (row.set p.x.toNat v)[p.x.toNat]? = some v :=
      List.getElem?_set_self hxlt
    rw [set_of_inb _ p old _ v hrow2 hcell2 hx hy]
    rw [List.set_set, List.set_set, set_getElem_opt_self hold,
      set_getElem_opt_self hrow]

theorem rect_set {inner outer : Nat} {g : List (List A)} (hr : Rect inner outer g)
    (p : Point) (v : A) : Rect inner outer (set g p v).2 := by
  by_cases h : inBounds g p = true
  · obtain ⟨hx, hy, row, hrow, hxlt⟩ := (inBounds_eq_true_iff g p).mp h
    obtain ⟨old, hold⟩ : ∃ o, row[p.x.toNat]? = some o :=
      ⟨_, List.getElem?_eq_getElem hxlt⟩
    rw [set_of_inb g p v row old hrow hold hx hy]
    refine ⟨by simp [hr.1], fun r hrm => ?_⟩
    rcases List.mem_or_eq_of_mem_set hrm with hin | heq
    · exact hr.2 r hin
    · subst heq
      simp [hr.2 row (List.getElem?_mem hrow)]
  · rw [set_of_oob g p v (by simpa using h)]
    exact hr

/-! ## Claim theorems -/

/-- C1: for every grid (dynamic `Vec<Vec<A>>` or fixed-size
`[[A; inner]; outer]`) and every out-of-bounds coordinate (negative
component, `y` at or beyond the row count, or `x` at or beyond the length of
row `y`, including ragged rows), `get_option` and `get_mut_option` return
`none`; being total functions of the model they never panic, and `none`
references no cell. -/
theorem c1_out_of_bounds_gives_none (A : Type) (g : List (List A)) (p : Point) :
    (inBounds g p = false →
      get_option g p = none ∧ get_mut_option g p = none) ∧
    (∀ inner outer : Nat, Rect inner outer g →
      arrInBounds inner outer p = false →
      get_option g p = none ∧ get_mut_option g p = none) := by
  have key : inBounds g p = false →
      get_option g p = none ∧ get_mut_option g p = none := by
    intro h
    have h1 := (get_option_eq_none_iff g p).mpr h
    exact ⟨h1, (get_mut_option_eq_get_option g p).trans h1⟩
  exact ⟨key, fun inner outer hr h => key ((inBounds_of_rect hr p).trans h)⟩

/-- Witness for C1: a negative coordinate on a ragged dynamic grid, and an
over-long `x` on a rectangular 2×2 grid. -/
theorem c1_witness :
    (get_option [[10], [20, 30]] (⟨-1, 0⟩ : Point) = none ∧
      get_mut_option [[10], [20, 30]] (⟨-1, 0⟩ : Point) = none) ∧
    (get_option [[1, 2], [3, 4]] (⟨2, 0⟩ : Point) = none ∧
      get_mut_option [[1, 2], [3, 4]] (⟨2, 0⟩ : Point) = none) :=
  ⟨(c1_out_of_bounds_gives_none Nat [[10], [20, 30]] ⟨-1, 0⟩).1 (by decide),
   (c1_out_of_bounds_gives_none Nat [[1, 2], [3, 4]] ⟨2, 0⟩).2 2 2
     (by decide) (by decide)⟩

/-- C2: for every grid (either variant) and every in-bounds coordinate,
`get_option` returns `some` of exactly the element the panicking index
yields. -/
theorem c2_get_option_agrees_with_index (A : Type) (g : List (List A))
    (p : Point) :
    (inBounds g p = true →
      ∃ v, index g p = some v ∧ get_option g p = some v) ∧
    (∀ inner outer : Nat, Rect inner outer g →
      arrInBounds inner outer p = true →
      ∃ v, index g p = some v ∧ get_option g p = some v) := by
  have key : inBounds g p = true →
      ∃ v, index g p = some v ∧ get_option g p = some v := by
    intro h
    have hs : (get_option g p).isSome = true := (isSome_get_option g p).trans h
    obtain ⟨v, hv⟩ := Option.isSome_iff_exists.mp hs
    exact ⟨v, (index_eq_get_option g p).trans hv, hv⟩
  exact ⟨key, fun inner outer hr h => key ((inBounds_of_rect hr p).trans h)⟩

/-- Witness for C2 on a concrete 2×2 grid at coordinate (1, 1). -/
theorem c2_witness :
    (∃ v, index [[0, 1], [2, 3]] (⟨1, 1⟩ : Point) = some v ∧
      get_option [[0, 1], [2, 3]] (⟨1, 1⟩ : Point) = some v) ∧
    (∃ v, index [[0, 1], [2, 3]] (⟨0, 1⟩ : Point) = some v ∧
      get_option [[0, 1], [2, 3]] (⟨0, 1⟩ : Point) = some v) :=
  ⟨(c2_get_option_agrees_with_index Nat [[0, 1], [2, 3]] ⟨1, 1⟩).1 (by decide),
   (c2_get_option_agrees_with_index Nat [[0, 1], [2, 3]] ⟨0, 1⟩).2 2 2
     (by decide) (by decide)⟩

/-- C3: for every grid (either variant), every out-of-bounds coordinate and
every value, `set` returns `none` and leaves the grid unchanged. -/
theorem c3_set_out_of_bounds_no_mutation (A : Type) (g : List (List A))
    (p : Point) (v : A) :
    (inBounds g p = false → set g p v = (none, g)) ∧
    (∀ inner outer : Nat, Rect inner outer g →
      arrInBounds inner outer p = false → set g p v = (none, g)) :=
  ⟨set_of_oob g p v,
   fun _ _ hr h => set_of_oob g p v ((inBounds_of_rect hr p).trans h)⟩

/-- Witness for C3: a ragged-row overflow on a dynamic grid, and a `y`
overflow on a rectangular 2×2 grid. -/
theorem c3_witness :
    set [[1], [1, 1], [1, 1, 1, 2]] (⟨3, 0⟩ : Point) 9 =
      (none, [[1], [1, 1], [1, 1, 1, 2]]) ∧
    set [[1, 2], [3, 4]] (⟨0, 5⟩ : Point) 9 = (none, [[1, 2], [3, 4]]) :=
  ⟨(c3_set_out_of_bounds_no_mutation Nat [[1], [1, 1], [1, 1, 1, 2]]
      ⟨3, 0⟩ 9).1 (by decide),
   (c3_set_out_of_bounds_no_mutation Nat [[1, 2], [3, 4]] ⟨0, 5⟩ 9).2 2 2
     (by decide) (by decide)⟩

/-- C4: for every grid (either variant), in-bounds coordinate `p` and value
`v`, `set` returns `some old` where `old` is the prior element at `p`; a
subsequent `get_option` at `p` returns `v`; every other cell reads unchanged;
and `set`ting `old` back restores the original grid.  For the fixed-size
variant the mutated grid moreover still satisfies the `Rect` invariant. -/
theorem c4_set_roundtrip (A : Type) (g : List (List A)) (p : Point) (v : A) :
    (inBounds g p = true →
      ∃ old, get_option g p = some old ∧ (set g p v).1 = some old ∧
        get_option (set g p v).2 p = some v ∧
        (∀ q : Point, q ≠ p → get_option (set g p v).2 q = get_option g q) ∧
        set (set g p v).2 p old = (some v, g)) ∧
    (∀ inner outer : Nat, Rect inner outer g →
      arrInBounds inner outer p = true →
      Rect inner outer (set g p v).2 ∧
      ∃ old, get_option g p = some old ∧ (set g p v).1 = some old ∧
        get_option (set g p v).2 p = some v ∧
        (∀ q : Point, q ≠ p → get_option (set g p v).2 q = get_option g q) ∧
        set (set g p v).2 p old = (some v, g)) := by
  refine ⟨set_roundtrip_main g p v, fun inner outer hr h => ?_⟩
  exact ⟨rect_set hr p v,
    set_roundtrip_main g p v ((inBounds_of_rect hr p).trans h)⟩

/-- Witness for C4 on a concrete 2×2 grid at coordinate (1, 0). -/
theorem c4_witness :
    (∃ old, get_option [[0, 1], [2, 3]] (⟨1, 0⟩ : Point) = some old ∧
      (set [[0, 1], [2, 3]] (⟨1, 0⟩ : Point) 9).1 = some old ∧
      get_option (set [[0, 1], [2, 3]] (⟨1, 0⟩ : Point) 9).2 ⟨1, 0⟩ = some 9 ∧
      (∀ q : Point, q ≠ ⟨1, 0⟩ →
        get_option (set [[0, 1], [2, 3]] (⟨1, 0⟩ : Point) 9).2 q =
          get_option [[0, 1], [2, 3]] q) ∧
      set (set [[0, 1], [2, 3]] (⟨1, 0⟩ : Point) 9).2 ⟨1, 0⟩ old =
        (some 9, [[0, 1], [2, 3]])) ∧
    Rect 2 2 (set [[0, 1], [2, 3]] (⟨1, 0⟩ : Point) 9).2 :=
  ⟨(c4_set_roundtrip Nat [[0, 1], [2, 3]] ⟨1, 0⟩ 9).1 (by decide),
   ((c4_set_roundtrip Nat [[0, 1], [2, 3]] ⟨1, 0⟩ 9).2 2 2
     (by decide) (by decide)).1⟩

/-- C5: the panicking indexed read and indexed write succeed exactly on
in-bounds coordinates (`none` models the panic): their success flag equals
the in-bounds predicate for the dynamic grid, and equals the extent-based
predicate for a fixed-size grid. -/
theorem c5_index_succeeds_iff_in_bounds (A : Type) (g : List (List A))
    (p : Point) (v : A) :
    ((index g p).isSome = inBounds g p ∧
      (index_mut_write g p v).isSome = inBounds g p) ∧
    (∀ inner outer : Nat, Rect inner outer g →
      (index g p).isSome = arrInBounds inner outer p ∧
      (index_mut_write g p v).isSome = arrInBounds inner outer p) := by
  have h1 : (index g p).isSome = inBounds g p := by
    rw [index_eq_get_option]
    exact isSome_get_option g p
  have h2 := isSome_index_mut_write g p v
  exact ⟨⟨h1, h2⟩, fun inner outer hr =>
    ⟨h1.trans (inBounds_of_rect hr p), h2.trans (inBounds_of_rect hr p)⟩⟩

/-- Witness for C5: concrete success flags on a 2×2 grid, including the
fixed-size phrasing. -/
theorem c5_witness :
    ((index [[0, 1], [2, 3]] (⟨1, -1⟩ : Point)).isSome =
        inBounds [[0, 1], [2, 3]] (⟨1, -1⟩ : Point) ∧
      (index_mut_write [[0, 1], [2, 3]] (⟨1, -1⟩ : Point) 9).isSome =
        inBounds [[0, 1], [2, 3]] (⟨1, -1⟩ : Point)) ∧
    ((index [[0, 1], [2, 3]] (⟨1, 1⟩ : Point)).isSome =
        arrInBounds 2 2 (⟨1, 1⟩ : Point) ∧
      (index_mut_write [[0, 1], [2, 3]] (⟨1, 1⟩ : Point) 9).isSome =
        arrInBounds 2 2 (⟨1, 1⟩ : Point)) :=
  ⟨(c5_index_succeeds_iff_in_bounds Nat [[0, 1], [2, 3]] ⟨1, -1⟩ 9).1,
   (c5_index_succeeds_iff_in_bounds Nat [[0, 1], [2, 3]] ⟨1, 1⟩ 9).2 2 2
     (by decide)⟩

/-- C6: the coordinate-paired traversal yields exactly one pair per cell in
row-major order — concretely the nine listed pairs for the 3×3 grid, and in
general: the total count equals the sum of the row lengths, and the cell at
column `x` of row `y` appears at flat position
(sum of the lengths of rows `0..y-1`) + `x`, paired with coordinate `(x, y)`
(stated for extents below `2^63`, where the `usize`-to-`isize` narrowing in
`Point::new` is exact; for a fixed-size `[[A; inner]; outer]` grid the
position is `y * inner + x`). -/
theorem c6_traversal_row_major_order :
    enumerate_iter_vec [[0, 1, 2], [3, 4, 5], [6, 7, 8]] =
      [(⟨0, 0⟩, 0), (⟨1, 0⟩, 1), (⟨2, 0⟩, 2), (⟨0, 1⟩, 3), (⟨1, 1⟩, 4),
        (⟨2, 1⟩, 5), (⟨0, 2⟩, 6), (⟨1, 2⟩, 7), (⟨2, 2⟩, 8)] ∧
    (∀ (A : Type) (g : List (List A)),
      (enumerate_iter_vec g).length = (g.map List.length).sum) ∧
    (∀ (A : Type) (g : List (List A)) (y x : Nat) (row : List A) (v : A),
      y < 2 ^ 63 → x < 2 ^ 63 → g[y]? = some row → row[x]? = some v →
      (enumerate_iter_vec g)[((g.take y).map List.length).sum + x]? =
        some (⟨(x : Int), (y : Int)⟩, v)) ∧
    (∀ (A : Type) (inner outer : Nat) (g : List (List A)),
      Rect inner outer g →
      ∀ (y x : Nat) (row : List A) (v : A),
      y < 2 ^ 63 → x < 2 ^ 63 → g[y]? = some row → row[x]? = some v →
      (enumerate_iter_vec g)[y * inner + x]? =
        some (⟨(x : Int), (y : Int)⟩, v)) := by
  have hgen : ∀ (A : Type) (g : List (List A)) (y x : Nat) (row : List A)
      (v : A), y < 2 ^ 63 → x < 2 ^ 63 → g[y]? = some row → row[x]? = some v →
      (enumerate_iter_vec g)[((g.take y).map List.length).sum + x]? =
        some (⟨(x : Int), (y : Int)⟩, v) := by
    intro A g y x row v hy63 hx63 hrow hv
    rw [enumerate_iter_vec_eq, getElem_enum_from_pairs g 0 y x row v hrow hv,
      Nat.zero_add, point_new_of_lt hx63 hy63]
  refine ⟨by decide, ?_, hgen, ?_⟩
  · intro A g
    rw [enumerate_iter_vec_eq, length_enum_from_pairs]
  · intro A inner outer g hr y x row v hy63 hx63 hrow hv
    obtain ⟨hylt, -⟩ := List.getElem?_eq_some_iff.mp hrow
    have hsum := take_map_length_sum_of_rect hr y (Nat.le_of_lt hylt)
    rw [← hsum]
    exact hgen A g y x row v hy63 hx63 hrow hv

/-- Witness for C6: the general position formula applied at cell (2, 1) of the
3×3 grid, and the fixed-size formula at the same cell. -/
theorem c6_witness :
    (enumerate_iter_vec [[0, 1, 2], [3, 4, 5], [6, 7, 8]])[
        (([[0, 1, 2], [3, 4, 5], [6, 7, 8]].take 1).map List.length).sum + 2]? =
      some ((⟨2, 1⟩ : Point), 5) ∧
    (enumerate_iter_vec [[0, 1, 2], [3, 4, 5], [6, 7, 8]])[1 * 3 + 2]? =
      some ((⟨2, 1⟩ : Point), 5) :=
  ⟨c6_traversal_row_major_order.2.2.1 Nat [[0, 1, 2], [3, 4, 5], [6, 7, 8]]
      1 2 [3, 4, 5] 5 (by decide) (by decide) (by decide) (by decide),
   c6_traversal_row_major_order.2.2.2 Nat 3 3 [[0, 1, 2], [3, 4, 5], [6, 7, 8]]
      (by decide) 1 2 [3, 4, 5] 5 (by decide) (by decide) (by decide)
      (by decide)⟩

/-- C7: coordinate arithmetic is componentwise; consequently `a + b - b = a`,
`a * 0 = (0, 0)`, `a * 1 = a`; each named direction constant offsets a point
by exactly its documented unit/diagonal offset, and every direction constant
is a nonzero member of `{-1, 0, 1} × {-1, 0, 1}`. -/
theorem c7_point_arithmetic :
    ∀ (a b : Point) (k : Int),
      a + b = ⟨a.x + b.x, a.y + b.y⟩ ∧
      a - b = ⟨a.x - b.x, a.y - b.y⟩ ∧
      a * k = ⟨a.x * k, a.y * k⟩ ∧
      a + b - b = a ∧
      a * (0 : Int) = ⟨0, 0⟩ ∧
      a * (1 : Int) = a ∧
      a + UP = ⟨a.x, a.y - 1⟩ ∧
      a + DOWN = ⟨a.x, a.y + 1⟩ ∧
      a + LEFT = ⟨a.x - 1, a.y⟩ ∧
      a + RIGHT = ⟨a.x + 1, a.y⟩ ∧
      a + UP_LEFT = ⟨a.x - 1, a.y - 1⟩ ∧
      a + UP_RIGHT = ⟨a.x + 1, a.y - 1⟩ ∧
      a + DOWN_LEFT = ⟨a.x - 1, a.y + 1⟩ ∧
      a + DOWN_RIGHT = ⟨a.x + 1, a.y + 1⟩ ∧
      (∀ d, d ∈ [UP, DOWN, LEFT, RIGHT, UP_LEFT, UP_RIGHT, DOWN_LEFT,
          DOWN_RIGHT] →
        d ≠ ⟨0, 0⟩ ∧ (d.x = -1 ∨ d.x = 0 ∨ d.x = 1) ∧
          (d.y = -1 ∨ d.y = 0 ∨ d.y = 1)) := by
  intro a b k
  obtain ⟨ax, ay⟩ := a
  obtain ⟨bx, byy⟩ := b
  refine ⟨rfl, rfl, rfl, ?_, ?_, ?_, ?_, ?_, ?_, ?_, ?_, ?_, ?_, ?_,
    by decide⟩
  all_goals
    simp only [add_def, sub_def, mul_def, Point.add, Point.sub, Point.mul,
      Point.new_isize, UP, DOWN, LEFT, RIGHT, UP_LEFT, UP_RIGHT, DOWN_LEFT,
      DOWN_RIGHT, Point.mk.injEq]
  all_goals constructor <;> ring_nf

/-- Witness for C7: the cancellation law at (5, 7) + (2, 3) - (2, 3), and the
direction-set fact instantiated at `UP`. -/
theorem c7_witness :
    (⟨5, 7⟩ : Point) + ⟨2, 3⟩ - ⟨2, 3⟩ = ⟨5, 7⟩ ∧
    ((UP : Point) ≠ ⟨0, 0⟩ ∧ (UP.x = -1 ∨ UP.x = 0 ∨ UP.x = 1) ∧
      (UP.y = -1 ∨ UP.y = 0 ∨ UP.y = 1)) :=
  ⟨(c7_point_arithmetic ⟨5, 7⟩ ⟨2, 3⟩ 0).2.2.2.1,
   (c7_point_arithmetic ⟨5, 7⟩ ⟨2, 3⟩
       0).2.2.2.2.2.2.2.2.2.2.2.2.2.2 UP (by decide)⟩

/-- C8: the claim says `Point::new(x: usize, y: usize)` must fail (or be
statically rejected) when a length exceeds the signed range.  The code
instead performs the silent wrapping `as isize` cast: at `x = 2^63` (one past
`isize::MAX` on a 64-bit target) it produces the wrapped coordinate
`(-2^63, 0)` rather than failing — the latent defect the spec's design notes
call out.  This theorem evaluates the code at that failing input. -/
theorem c8_new_silently_wraps :
    Point.new (2 ^ 63) 0 = ⟨-(2 ^ 63 : Int), 0⟩ ∧
    Point.new (2 ^ 63) 0 ≠ ⟨((2 ^ 63 : Nat) : Int), 0⟩ := by
  decide

/-- C9: `get_mut_option` succeeds exactly when `get_option` does, and on
success the mutable handle refers to the very cell `get_option` reads (in the
model, the two functions agree as `Option`-valued reads). -/
theorem c9_get_mut_option_agrees_with_get_option (A : Type)
    (g : List (List A)) (p : Point) :
    get_mut_option g p = get_option g p ∧
    ((get_mut_option g p).isSome ↔ (get_option g p).isSome) :=
  ⟨rfl, Iff.rfl⟩

/-- C10: on any dynamic grid (ragged included) whose extents are below
`2^63` — every realisable `Vec<Vec<A>>` on a 64-bit target, where `Point::new`
does not wrap — every pair `(c, v)` yielded by the traversal satisfies
`get_option g c = some v` against the pre-consumption grid, and the number of
yielded pairs is the total cell count (sum of the row lengths). -/
theorem c10_traversal_agrees_with_get_option (A : Type) (g : List (List A))
    (hlen : g.length < 2 ^ 63) (hrows : ∀ r ∈ g, r.length < 2 ^ 63) :
    (∀ (p : Point) (v : A), (p, v) ∈ enumerate_iter_vec g →
      get_option g p = some v) ∧
    (enumerate_iter_vec g).length = (g.map List.length).sum := by
  constructor
  · intro p v hmem
    rw [enumerate_iter_vec_eq] at hmem
    obtain ⟨y, row, x, hrow, hv, hp⟩ := mem_enum_from_pairs hmem
    obtain ⟨hylt, -⟩ := List.getElem?_eq_some_iff.mp hrow
    obtain ⟨hxlt, -⟩ := List.getElem?_eq_some_iff.mp hv
    have hy63 : y < 2 ^ 63 := Nat.lt_trans hylt hlen
    have hx63 : x < 2 ^ 63 :=
      Nat.lt_trans hxlt (hrows row (List.getElem?_mem hrow))
    rw [Nat.zero_add] at hp
    rw [hp, point_new_of_lt hx63 hy63]
    apply (get_option_eq_some_iff g _ v).mpr
    refine ⟨Int.natCast_nonneg x, Int.natCast_nonneg y, row, ?_, ?_⟩
    · simpa using hrow
    · simpa using hv
  · rw [enumerate_iter_vec_eq, length_enum_from_pairs]

/-- Witness for C10 on a concrete ragged grid. -/
theorem c10_witness :
    get_option [[1], [2, 3]] (⟨1, 1⟩ : Point) = some 3 ∧
    (enumerate_iter_vec [[1], [2, 3]]).length =
      ([[1], [2, 3]].map List.length).sum :=
  ⟨(c10_traversal_agrees_with_get_option Nat [[1], [2, 3]] (by decide)
      (by decide)).1 ⟨1, 1⟩ 3 (by decide),
   (c10_traversal_agrees_with_get_option Nat [[1], [2, 3]] (by decide)
      (by decide)).2⟩

end PointIndex
